import Mathlib

/-! Verification of the pricing and receipt workflow of `src/app.py`
(ossies-recycling), shallowly embedded in Lean 4.

Weights, prices and amounts are embedded as rationals.  Python
`round(x, 2)` is modelled as round-half-to-even at two decimal places.
A value whose `float(...)` conversion raises is modelled by a dedicated
constructor, so the `try/except` defaulting of the source is explicit.
Python dicts are modelled as association lists in insertion order with
assignment replacing an existing binding in place. -/

/-- A value stored in a spreadsheet cell or carried in a Python dict, as
seen by `float(...)`: either the conversion yields the rational `q`, or
it raises. -/
inductive PyVal where
  | num (q : ℚ)
  | bad
deriving DecidableEq

/-- A raw web-form value after `.strip()`: an absent field is `none` at
the lookup site, an all-whitespace field strips to `blank`, and otherwise
the text either parses as the rational `q` or fails to parse. -/
inductive FormRaw where
  | blank
  | num (q : ℚ)
  | bad
deriving DecidableEq

/-- `float(v)` with a fallback of `0.0`: the `try/except` pattern of
`get_materials` (src/app.py lines 82-86) and `append_transactions`
(lines 120-123). -/
def float_or0 (v : PyVal) : ℚ :=
  match v with
  | PyVal.num q => q
  | PyVal.bad => 0

/-- One row of the `Prices` worksheet: the header row
`PRICES_HEADERS = ["Material", "Price"]` or a data row `[material, price]`. -/
inductive PRow where
  | header
  | entry (material : String) (price : PyVal)
deriving DecidableEq

/-- One row of the `Transactions` worksheet, with the six columns of
`TRANSACTIONS_HEADERS = ["Date", "Employee", "Material", "Weight",
"Price", "Amount"]` (src/app.py line 35). -/
structure TRow where
  date : String
  employee : String
  material : String
  weight : ℚ
  price : ℚ
  amount : ℚ
deriving DecidableEq

/-- One item of the second receipt view (src/app.py lines 324-332). -/
structure RItem where
  material : String
  weight : ℚ
  price : ℚ
  amount : ℚ
deriving DecidableEq

/-- The key list of an association list modelling a Python dict. -/
def keys {α : Type} (d : List (String × α)) : List String :=
  d.map Prod.fst

/-- `d.get(k, df)` on a Python dict modelled as an association list. -/
def lookupD {α : Type} (d : List (String × α)) (k : String) (df : α) : α :=
  match d with
  | [] => df
  | p :: rest => if p.1 = k then p.2 else lookupD rest k df

/-- `d[k] = v` on a Python dict modelled as an association list: replace
the existing binding in place, otherwise append a new binding. -/
def dictInsert {α : Type} (d : List (String × α)) (k : String) (v : α) :
    List (String × α) :=
  match d with
  | [] => [(k, v)]
  | p :: rest => if p.1 = k then (k, v) :: rest else p :: dictInsert rest k v

/-- Build a dict by successive assignments, mirroring a
`for r in rs: d[r.key] = r.value` loop starting from `{}`. -/
def dict_of {α : Type} (l : List (String × α)) : List (String × α) :=
  l.foldl (fun d r => dictInsert d r.1 r.2) []

/-- Round a rational to the nearest integer with ties to even: the
behaviour of Python 3 `round` on an exact half. -/
def rhe (q : ℚ) : ℤ :=
  if q - ⌊q⌋ < 1/2 then ⌊q⌋
  else if q - ⌊q⌋ = 1/2 then (if Even ⌊q⌋ then ⌊q⌋ else ⌊q⌋ + 1)
  else ⌊q⌋ + 1

/-- Python `round(q, 2)`. -/
def pyRound2 (q : ℚ) : ℚ := (rhe (q * 100) : ℚ) / 100

theorem rhe_ge_floor (q : ℚ) : ⌊q⌋ ≤ rhe q := by
  unfold rhe; split_ifs <;> omega

theorem rhe_le_floor_add_one (q : ℚ) : rhe q ≤ ⌊q⌋ + 1 := by
  unfold rhe; split_ifs <;> omega

theorem rhe_eq_of_lt {q : ℚ} (h : q - ⌊q⌋ < 1/2) : rhe q = ⌊q⌋ := by
  unfold rhe; rw [if_pos h]

theorem rhe_eq_of_half {q : ℚ} (h : q - ⌊q⌋ = 1/2) :
    rhe q = if Even ⌊q⌋ then ⌊q⌋ else ⌊q⌋ + 1 := by
  unfold rhe
  rw [if_neg (show ¬q - (⌊q⌋ : ℚ) < 1/2 by rw [h]; exact lt_irrefl _), if_pos h]

theorem rhe_eq_of_gt {q : ℚ} (h : 1/2 < q - ⌊q⌋) : rhe q = ⌊q⌋ + 1 := by
  unfold rhe
  rw [if_neg (show ¬q - (⌊q⌋ : ℚ) < 1/2 from not_lt.2 (le_of_lt h)),
    if_neg (show ¬q - (⌊q⌋ : ℚ) = 1/2 from ne_of_gt h)]

theorem rhe_mono {a b : ℚ} (hab : a ≤ b) : rhe a ≤ rhe b := by
  rcases lt_or_eq_of_le (Int.floor_le_floor hab) with hlt | heq
  · refine le_trans (rhe_le_floor_add_one a) (le_trans ?_ (rhe_ge_floor b))
    omega
  · have hsub : a - (⌊a⌋ : ℚ) ≤ b - (⌊b⌋ : ℚ) := by
      rw [← heq]; exact sub_le_sub_right hab _
    rcases lt_trichotomy (a - (⌊a⌋ : ℚ)) (1/2) with ha1 | ha2 | ha3
    · rw [rhe_eq_of_lt ha1, heq]
      exact rhe_ge_floor b
    · have hble : 1/2 ≤ b - (⌊b⌋ : ℚ) := by rw [← ha2]; exact hsub
      rcases eq_or_lt_of_le hble with hb2 | hb2
      · rw [rhe_eq_of_half ha2, rhe_eq_of_half hb2.symm, heq]
      · rw [rhe_eq_of_half ha2, rhe_eq_of_gt hb2, heq]
        split_ifs <;> omega
    · have hb3 : 1/2 < b - (⌊b⌋ : ℚ) := lt_of_lt_of_le ha3 hsub
      rw [rhe_eq_of_gt ha3, rhe_eq_of_gt hb3, heq]

theorem pyRound2_mono {a b : ℚ} (hab : a ≤ b) : pyRound2 a ≤ pyRound2 b := by
  unfold pyRound2
  have h : rhe (a * 100) ≤ rhe (b * 100) := rhe_mono (by linarith)
  have h2 : ((rhe (a * 100) : ℤ) : ℚ) ≤ ((rhe (b * 100) : ℤ) : ℚ) := by
    exact_mod_cast h
  exact (div_le_div_iff_of_pos_right (by norm_num)).2 h2

theorem pyRound2_zero : pyRound2 0 = 0 := by
  norm_num [pyRound2, rhe]

example : pyRound2 2 = 2 := by norm_num [pyRound2, rhe]
example : pyRound2 (5/2 * 4) = 10 := by norm_num [pyRound2, rhe]
example : rhe (5/2) = 2 := by norm_num [rhe]
example : rhe (7/2) = 4 := by norm_num [rhe, Int.even_iff]

theorem keys_cons {α : Type} (p : String × α) (rest : List (String × α)) :
    keys (p :: rest) = p.1 :: keys rest := rfl

theorem mem_keys_of_mem {α : Type} {d : List (String × α)} {k : String} {v : α}
    (h : (k, v) ∈ d) : k ∈ keys d :=
  List.mem_map_of_mem Prod.fst h

theorem lookupD_of_not_mem {α : Type} {d : List (String × α)} {k : String}
    (df : α) (h : k ∉ keys d) : lookupD d k df = df := by
  induction d with
  | nil => rfl
  | cons p rest ih =>
    rw [keys_cons, List.mem_cons] at h
    push_neg at h
    rw [lookupD, if_neg (fun he => h.1 he.symm)]
    exact ih h.2

theorem lookupD_dictInsert_self {α : Type} (d : List (String × α)) (k : String)
    (v df : α) : lookupD (dictInsert d k v) k df = v := by
  induction d with
  | nil => simp [dictInsert, lookupD]
  | cons p rest ih =>
    by_cases h : p.1 = k
    · simp [dictInsert, h, lookupD]
    · rw [dictInsert, if_neg h, lookupD, if_neg h]
      exact ih

theorem lookupD_dictInsert_ne {α : Type} (d : List (String × α)) (k : String)
    (v : α) (m : String) (df : α) (h : m ≠ k) :
    lookupD (dictInsert d k v) m df = lookupD d m df := by
  induction d with
  | nil => simp [dictInsert, lookupD, Ne.symm h]
  | cons p rest ih =>
    by_cases hp : p.1 = k
    · rw [dictInsert, if_pos hp, lookupD, if_neg (fun he : k = m => h he.symm),
        lookupD, if_neg (fun he : p.1 = m => h (hp ▸ he).symm)]
    · rw [dictInsert, if_neg hp, lookupD, lookupD]
      by_cases hm : p.1 = m
      · rw [if_pos hm, if_pos hm]
      · rw [if_neg hm, if_neg hm]
        exact ih

theorem dictInsert_of_fresh {α : Type} {d : List (String × α)} {k : String}
    (v : α) (h : k ∉ keys d) : dictInsert d k v = d ++ [(k, v)] := by
  induction d with
  | nil => rfl
  | cons p rest ih =>
    rw [keys_cons, List.mem_cons] at h
    push_neg at h
    rw [dictInsert, if_neg (fun he => h.1 he.symm), List.cons_append]
    rw [ih h.2]

theorem keys_dictInsert_of_mem {α : Type} {d : List (String × α)} {k : String}
    (v : α) (h : k ∈ keys d) : keys (dictInsert d k v) = keys d := by
  induction d with
  | nil => cases h
  | cons p rest ih =>
    by_cases hp : p.1 = k
    · rw [dictInsert, if_pos hp, keys_cons, keys_cons, hp]
    · rw [keys_cons, List.mem_cons] at h
      rcases h with h1 | h2
      · exact absurd h1.symm hp
      · rw [dictInsert, if_neg hp, keys_cons, keys_cons, ih h2]

theorem keys_nodup_dictInsert {α : Type} {d : List (String × α)} (k : String)
    (v : α) (h : (keys d).Nodup) : (keys (dictInsert d k v)).Nodup := by
  by_cases hk : k ∈ keys d
  · rw [keys_dictInsert_of_mem v hk]; exact h
  · rw [dictInsert_of_fresh v hk, keys, List.map_append]
    simp only [keys] at h hk
    simp [List.nodup_append, h, hk]

theorem foldl_dictInsert_keys_nodup {α β : Type} (f : β → String) (g : β → α) :
    ∀ (l : List β) (acc : List (String × α)), (keys acc).Nodup →
      (keys (l.foldl (fun d r => dictInsert d (f r) (g r)) acc)).Nodup := by
  intro l
  induction l with
  | nil => intro acc h; exact h
  | cons r tl ih =>
    intro acc h
    exact ih (dictInsert acc (f r) (g r)) (keys_nodup_dictInsert (f r) (g r) h)

theorem foldl_dictInsert_of_fresh {α : Type} :
    ∀ (l : List (String × α)) (acc : List (String × α)), (keys l).Nodup →
      (∀ k, k ∈ keys l → k ∉ keys acc) →
      l.foldl (fun d r => dictInsert d r.1 r.2) acc = acc ++ l := by
  intro l
  induction l with
  | nil => intro acc _ _; simp
  | cons r tl ih =>
    intro acc hnd hfresh
    rw [keys_cons] at hnd
    have hr : r.1 ∉ keys acc := hfresh r.1 (by rw [keys_cons]; exact List.mem_cons_self _ _)
    have hstep : dictInsert acc r.1 r.2 = acc ++ [r] := by
      rw [dictInsert_of_fresh r.2 hr]
    rw [List.foldl_cons, hstep, ih (acc ++ [r]) (List.Nodup.of_cons hnd)]
    · simp
    · intro k hk
      rw [keys, List.map_append, List.mem_append]
      push_neg
      constructor
      · exact hfresh k (by rw [keys_cons]; exact List.mem_cons_of_mem _ hk)
      · have : k ≠ r.1 := by
          intro he
          exact (List.nodup_cons.1 hnd).1 (he ▸ hk)
        simpa [keys] using this

theorem keys_foldl_dictInsert_of_sub {α : Type} :
    ∀ (np : List (String × α)) (d : List (String × α)),
      (∀ x ∈ np, x.1 ∈ keys d) →
      keys (np.foldl (fun a r => dictInsert a r.1 r.2) d) = keys d := by
  intro np
  induction np with
  | nil => intro d _; rfl
  | cons r tl ih =>
    intro d hsub
    have hr : r.1 ∈ keys d := hsub r (List.mem_cons_self _ _)
    have hkeys : keys (dictInsert d r.1 r.2) = keys d := keys_dictInsert_of_mem r.2 hr
    rw [List.foldl_cons, ih (dictInsert d r.1 r.2) (fun x hx => by
      rw [hkeys]; exact hsub x (List.mem_cons_of_mem _ hx)), hkeys]

theorem foldl_dictInsert_lookupD {α : Type} :
    ∀ (np : List (String × α)) (d : List (String × α)) (m : String) (df : α),
      lookupD (np.foldl (fun a r => dictInsert a r.1 r.2) d) m df = lookupD d m df
      ∨ ∃ q, (m, q) ∈ np ∧
          lookupD (np.foldl (fun a r => dictInsert a r.1 r.2) d) m df = q := by
  intro np
  induction np with
  | nil => intro d m df; exact Or.inl rfl
  | cons r tl ih =>
    intro d m df
    rw [List.foldl_cons]
    rcases ih (dictInsert d r.1 r.2) m df with h | ⟨q, hq, hval⟩
    · by_cases hm : m = r.1
      · refine Or.inr ⟨r.2, ?_, ?_⟩
        · rw [hm]
          simp
        · rw [h, hm, lookupD_dictInsert_self]
      · rw [h, lookupD_dictInsert_ne d r.1 r.2 m df hm]
        exact Or.inl rfl
    · exact Or.inr ⟨q, List.mem_cons_of_mem _ hq, hval⟩

theorem key_nodup_val_eq {α : Type} :
    ∀ {l : List (String × α)}, (keys l).Nodup →
      ∀ {k : String} {a b : α}, (k, a) ∈ l → (k, b) ∈ l → a = b := by
  intro l
  induction l with
  | nil => intro _ k a b ha _; cases ha
  | cons p tl ih =>
    intro hnd k a b ha hb
    rw [keys_cons, List.nodup_cons] at hnd
    rcases List.mem_cons.1 ha with ha1 | ha2 <;> rcases List.mem_cons.1 hb with hb1 | hb2
    · exact congrArg Prod.snd (ha1.trans hb1.symm)
    · exfalso
      apply hnd.1
      have hk : k = p.1 := congrArg Prod.fst ha1
      rw [← hk]
      exact mem_keys_of_mem hb2
    · exfalso
      apply hnd.1
      have hk : k = p.1 := congrArg Prod.fst hb1
      rw [← hk]
      exact mem_keys_of_mem ha2
    · exact ih hnd.2 ha2 hb2

/-- The record carried by one data row of the `Prices` worksheet, as
`get_all_records` presents it: the `Material` and `Price` cells. -/
def record_of_row (r : PRow) : Option (String × PyVal) :=
  match r with
  | PRow.header => none
  | PRow.entry m p => some (m, p)

/-- `ws.get_all_records()` on the `Prices` worksheet: the first row is the
header, the remaining rows are records.  Every sheet this application
writes is either empty (just cleared) or starts with the header row, so
only those shapes carry records here. -/
def sheet_records (sheet : List PRow) : List (String × PyVal) :=
  match sheet with
  | PRow.header :: rest => rest.filterMap record_of_row
  | _ => []

/-- `get_materials` (src/app.py lines 70-90): build the
`{Material: float(Price)}` dict from the `Prices` sheet, defaulting an
unparseable price to `0.0`. -/
def get_materials (sheet : List PRow) : List (String × ℚ) :=
  (sheet_records sheet).foldl
    (fun materials r => dictInsert materials r.1 (float_or0 r.2)) []

/-- The data row `[mat, float(price)]` appended for each catalog entry by
`save_prices` (src/app.py line 103). -/
def price_rows (pd : List (String × ℚ)) : List PRow :=
  pd.map (fun mp => PRow.entry mp.1 (PyVal.num mp.2))

/-- The sequence of primitive worksheet operations performed by
`save_prices` (src/app.py lines 97-104): `ws.clear()`, then
`ws.append_row(PRICES_HEADERS)`, then one `ws.append_row([mat, price])`
per entry of the given dict. -/
def save_prices_ops (pd : List (String × ℚ)) : List (List PRow → List PRow) :=
  (fun _ => [])
    :: (fun s => s ++ [PRow.header])
    :: pd.map (fun mp => fun s => s ++ [PRow.entry mp.1 (PyVal.num mp.2)])

/-- Run a list of worksheet operations in order on a sheet state. -/
def apply_ops (ops : List (List PRow → List PRow)) (s : List PRow) : List PRow :=
  ops.foldl (fun t op => op t) s

/-- Sheet state after the first `k` primitive operations succeed and an
exception interrupts the rest. -/
def run_ops (ops : List (List PRow → List PRow)) (s : List PRow) (k : ℕ) :
    List PRow :=
  apply_ops (ops.take k) s

/-- `save_prices(prices_dict)` completing without an exception: the
resulting `Prices` sheet state. -/
def save_prices (old : List PRow) (pd : List (String × ℚ)) : List PRow :=
  apply_ops (save_prices_ops pd) old

/-- `save_prices(prices_dict)` when an exception occurs after `k`
primitive worksheet operations: the `except` branch catches it and
returns `(False, error)`, leaving whatever state the first `k`
operations produced.  If no operation fails the full rewrite stands and
`(True, None)` is returned.  The boolean is the returned success flag. -/
def save_prices_fail (old : List PRow) (pd : List (String × ℚ)) (k : ℕ) :
    List PRow × Bool :=
  if k < (save_prices_ops pd).length then (run_ops (save_prices_ops pd) old k, false)
  else (save_prices old pd, true)

/-- `append_transactions(employee_name, weight_dict)` (src/app.py lines
109-133): one row per entry of `weight_dict`, in order, with the weight
re-parsed by `float` (defaulting to `0.0`), the price looked up in the
live catalog (defaulting to `0.0`), and `amount = round(price * w, 2)`.
`now` is the single timestamp string computed at line 117.  Returns the
rows appended to the `Transactions` sheet. -/
def append_transactions (employee_name : String)
    (weight_dict : List (String × PyVal)) (sheet : List PRow) (now : String) :
    List TRow :=
  weight_dict.map (fun mw =>
    { date := now
      employee := employee_name
      material := mw.1
      weight := float_or0 mw.2
      price := lookupD (get_materials sheet) mw.1 0
      amount := pyRound2 (lookupD (get_materials sheet) mw.1 0 * float_or0 mw.2) })

/-- `get_transactions(all_rows)` (src/app.py lines 135-150): all records,
or only those whose stored `Date` string starts with today's date prefix. -/
def get_transactions (records : List TRow) (all_rows : Bool) (today : String) :
    List TRow :=
  if all_rows then records
  else records.filter (fun r => r.date.startsWith today)

/-- The weight parsing of `employee_payout` (src/app.py lines 200-206):
a missing or blank field becomes `"0"`, and a parse failure defaults to
`0.0`. -/
def parse_weight (raw : Option FormRaw) : ℚ :=
  match raw with
  | none => 0
  | some FormRaw.blank => 0
  | some (FormRaw.num q) => q
  | some FormRaw.bad => 0

/-- The `weight_dict` built by the POST branch of `employee_payout`
(src/app.py lines 196-207): one entry per key of the current catalog,
with the parsed form value for that material. -/
def employee_payout_weights (sheet : List PRow)
    (form : String → Option FormRaw) : List (String × ℚ) :=
  (get_materials sheet).map (fun mp => (mp.1, parse_weight (form mp.1)))

/-- The `materials_for_receipt` dict of the first `employee_receipt`
(src/app.py lines 236-245): one `(mat, (weight, amount))` line per
positive-weight entry, where the stored `price` field is the line amount
`round(weight * price, 2)`. -/
def materials_for_receipt (sheet : List PRow)
    (weight_dict : List (String × ℚ)) : List (String × ℚ × ℚ) :=
  weight_dict.filterMap (fun mw =>
    if 0 < mw.2 then
      some (mw.1, mw.2, pyRound2 (mw.2 * lookupD (get_materials sheet) mw.1 0))
    else none)

/-- The `items` list of the second `employee_receipt` (src/app.py lines
324-329): one item per entry of the session `weight_dict`, with no
positive-weight filter. -/
def receipt_items (sheet : List PRow) (weight_dict : List (String × ℚ)) :
    List RItem :=
  weight_dict.map (fun mw =>
    { material := mw.1
      weight := mw.2
      price := lookupD (get_materials sheet) mw.1 0
      amount := pyRound2 (lookupD (get_materials sheet) mw.1 0 * mw.2) })

/-- The `new_prices` collection loop of `admin_prices` (src/app.py lines
391-401): iterate the current catalog keys; a missing or blank field is
skipped, a parse failure aborts the whole POST with the flashed error
message, and a parsed value is collected. -/
def admin_new_prices : List (String × ℚ) → (String → Option FormRaw) →
    Except String (List (String × ℚ))
  | [], _ => Except.ok []
  | mp :: rest, form =>
    match form mp.1 with
    | none => admin_new_prices rest form
    | some FormRaw.blank => admin_new_prices rest form
    | some (FormRaw.num q) =>
        Except.map (fun np => (mp.1, q) :: np) (admin_new_prices rest form)
    | some FormRaw.bad => Except.error ("Invalid price for " ++ mp.1 ++ ".")

/-- The merged dict `admin_prices` passes to `save_prices` (src/app.py
lines 403-405): `merged = dict(materials); merged.update(new_prices)` —
or the flashed error if a submitted price failed to parse. -/
def admin_prices_post (sheet : List PRow) (form : String → Option FormRaw) :
    Except String (List (String × ℚ)) :=
  Except.map
    (fun np => np.foldl (fun d r => dictInsert d r.1 r.2) (get_materials sheet))
    (admin_new_prices (get_materials sheet) form)

/-- The `Prices` sheet state after a POST to `admin_prices`: unchanged
when the POST is rejected before any save (src/app.py line 401),
otherwise whatever state the `save_prices` call at line 407 leaves.
That call may raise after `k` primitive worksheet operations; the route
only flashes a message on `ok == False` (lines 408-409), so a partial
rewrite stands.  `k` at or beyond the operation count is the
exception-free complete save. -/
def admin_prices_effect (sheet : List PRow) (form : String → Option FormRaw)
    (k : ℕ) : List PRow :=
  match admin_prices_post sheet form with
  | Except.error _ => sheet
  | Except.ok merged => (save_prices_fail sheet merged k).1

/-- The success flag `ok` returned by the `save_prices` call of a POST to
`admin_prices` (src/app.py line 407); `true` for a POST rejected before
any save was attempted, which leaves the sheet untouched. -/
def admin_prices_save_ok (sheet : List PRow) (form : String → Option FormRaw)
    (k : ℕ) : Bool :=
  match admin_prices_post sheet form with
  | Except.error _ => true
  | Except.ok merged => (save_prices_fail sheet merged k).2

/-- Build a `Prices` sheet directly from records (header plus one data
row per record), for stating facts about stored catalogs. -/
def sheet_of (rs : List (String × PyVal)) : List PRow :=
  PRow.header :: rs.map (fun r => PRow.entry r.1 r.2)

theorem filterMap_some_comp {α β : Type} (f : α → β) (l : List α) :
    l.filterMap (fun x => some (f x)) = l.map f := by
  induction l with
  | nil => rfl
  | cons a tl ih => simp [ih]

theorem sheet_records_sheet_of (rs : List (String × PyVal)) :
    sheet_records (sheet_of rs) = rs := by
  simp [sheet_records, sheet_of, List.filterMap_map, record_of_row,
    Function.comp_def, Prod.mk.eta, List.filterMap_some]

theorem apply_ops_rows (pd : List (String × ℚ)) : ∀ s : List PRow,
    apply_ops (pd.map (fun mp => fun t => t ++ [PRow.entry mp.1 (PyVal.num mp.2)])) s
      = s ++ price_rows pd := by
  induction pd with
  | nil => intro s; simp [apply_ops, price_rows]
  | cons mp tl ih =>
    intro s
    rw [price_rows, List.map_cons, List.map_cons, apply_ops, List.foldl_cons]
    have := ih (s ++ [PRow.entry mp.1 (PyVal.num mp.2)])
    rw [apply_ops] at this
    rw [this, price_rows, List.append_assoc, List.singleton_append]

theorem save_prices_eq (old : List PRow) (pd : List (String × ℚ)) :
    save_prices old pd = PRow.header :: price_rows pd := by
  rw [save_prices, save_prices_ops, apply_ops, List.foldl_cons, List.foldl_cons]
  have := apply_ops_rows pd ([] ++ [PRow.header])
  rw [apply_ops] at this
  rw [this, List.nil_append, List.singleton_append]

theorem run_ops_save (old : List PRow) (pd : List (String × ℚ)) (k : ℕ)
    (hk : 1 ≤ k) :
    run_ops (save_prices_ops pd) old k = (PRow.header :: price_rows pd).take (k - 1) := by
  obtain ⟨k1, rfl⟩ : ∃ k1, k = k1 + 1 := ⟨k - 1, by omega⟩
  cases k1 with
  | zero => simp [run_ops, save_prices_ops, apply_ops]
  | succ k2 =>
    rw [run_ops, save_prices_ops, List.take_succ_cons, List.take_succ_cons,
      apply_ops, List.foldl_cons, List.foldl_cons, ← List.map_take]
    have := apply_ops_rows (pd.take k2) ([] ++ [PRow.header])
    rw [apply_ops] at this
    rw [this, List.nil_append, List.singleton_append]
    have hpr : price_rows (pd.take k2) = (price_rows pd).take k2 := by
      rw [price_rows, price_rows, List.map_take]
    rw [hpr]
    have : k2 + 1 + 1 - 1 = k2 + 1 := by omega
    rw [this, List.take_succ_cons]

theorem get_materials_save (old : List PRow) (pd : List (String × ℚ))
    (hnd : (keys pd).Nodup) : get_materials (save_prices old pd) = pd := by
  rw [save_prices_eq]
  have hrec : sheet_records (PRow.header :: price_rows pd)
      = pd.map (fun mp => (mp.1, PyVal.num mp.2)) := by
    simp only [sheet_records, price_rows, List.filterMap_map, record_of_row,
      Function.comp_def]
    exact filterMap_some_comp _ pd
  rw [get_materials, hrec, List.foldl_map]
  have hfold :
      (pd.foldl (fun materials mp =>
        dictInsert materials (mp.1, PyVal.num mp.2).1
          (float_or0 (mp.1, PyVal.num mp.2).2)) [])
      = pd.foldl (fun d r => dictInsert d r.1 r.2) [] := by
    simp [float_or0]
  rw [hfold, foldl_dictInsert_of_fresh pd [] hnd (by intro k _; simp [keys])]
  simp

theorem get_materials_keys_nodup (sheet : List PRow) :
    (keys (get_materials sheet)).Nodup := by
  rw [get_materials]
  exact foldl_dictInsert_keys_nodup (fun r => r.1) (fun r => float_or0 r.2)
    (sheet_records sheet) [] (by simp [keys])

theorem admin_new_prices_ok :
    ∀ (materials : List (String × ℚ)) (form : String → Option FormRaw)
      (np : List (String × ℚ)),
      admin_new_prices materials form = Except.ok np →
      ∀ x ∈ np, x.1 ∈ keys materials ∧ form x.1 = some (FormRaw.num x.2) := by
  intro materials
  induction materials with
  | nil =>
    intro form np h x hx
    rw [admin_new_prices] at h
    cases h
    cases hx
  | cons mp rest ih =>
    intro form np h x hx
    rw [admin_new_prices] at h
    cases hf : form mp.1 with
    | none =>
      rw [hf] at h
      have := ih form np h x hx
      exact ⟨by rw [keys_cons]; exact List.mem_cons_of_mem _ this.1, this.2⟩
    | some r =>
      cases r with
      | blank =>
        rw [hf] at h
        have := ih form np h x hx
        exact ⟨by rw [keys_cons]; exact List.mem_cons_of_mem _ this.1, this.2⟩
      | num q =>
        rw [hf] at h
        cases hrec : admin_new_prices rest form with
        | error e => rw [hrec] at h; cases h
        | ok np2 =>
          rw [hrec] at h
          have hnp : np = (mp.1, q) :: np2 := by
            cases h; rfl
          subst hnp
          rcases List.mem_cons.1 hx with hx1 | hx2
          · subst hx1
            exact ⟨by rw [keys_cons]; exact List.mem_cons_self _ _, hf⟩
          · have := ih form np2 hrec x hx2
            exact ⟨by rw [keys_cons]; exact List.mem_cons_of_mem _ this.1, this.2⟩
      | bad => rw [hf] at h; cases h

theorem admin_new_prices_error :
    ∀ (materials : List (String × ℚ)) (form : String → Option FormRaw)
      (mp : String × ℚ), mp ∈ materials → form mp.1 = some FormRaw.bad →
      ∃ e, admin_new_prices materials form = Except.error e := by
  intro materials
  induction materials with
  | nil => intro form mp hmem _; cases hmem
  | cons q rest ih =>
    intro form mp hmem hbad
    rcases List.mem_cons.1 hmem with h1 | h2
    · subst h1
      exact ⟨"Invalid price for " ++ mp.1 ++ ".", by rw [admin_new_prices, hbad]⟩
    · rcases ih form mp h2 hbad with ⟨e, he⟩
      cases hf : form q.1 with
      | none => exact ⟨e, by rw [admin_new_prices, hf]; exact he⟩
      | some r =>
        cases r with
        | blank => exact ⟨e, by rw [admin_new_prices, hf]; exact he⟩
        | num p => exact ⟨e, by rw [admin_new_prices, hf, he]; rfl⟩
        | bad => exact ⟨"Invalid price for " ++ q.1 ++ ".", by rw [admin_new_prices, hf]⟩

/-- C3: for every weight `w > 0` and unit price `p ≥ 0`, the line amount
computed by the transaction recorder (`append_transactions`) and by the
receipt builder (`materials_for_receipt`) equals `round(w * p, 2)`, and
for fixed `p` the amount is monotonically non-decreasing in `w`. -/
theorem c3_thm (emp now mat : String) (weights : List (String × PyVal))
    (sheet : List PRow) (w p w2 : ℚ)
    (hw : 0 < w) (hp : 0 ≤ p) (hw2 : w ≤ w2)
    (hcat : lookupD (get_materials sheet) mat 0 = p)
    (hmem : (mat, PyVal.num w) ∈ weights) :
    ({date := now, employee := emp, material := mat, weight := w, price := p,
        amount := pyRound2 (w * p)} : TRow)
      ∈ append_transactions emp weights sheet now
    ∧ (∀ wd : List (String × ℚ), (mat, w) ∈ wd →
        (mat, w, pyRound2 (w * p)) ∈ materials_for_receipt sheet wd)
    ∧ pyRound2 (w * p) ≤ pyRound2 (w2 * p) := by
  refine ⟨?_, ?_, ?_⟩
  · rw [append_transactions]
    refine List.mem_map.2 ⟨(mat, PyVal.num w), hmem, ?_⟩
    simp [float_or0, hcat, mul_comm]
  · intro wd hwd
    rw [materials_for_receipt]
    refine List.mem_filterMap.2 ⟨(mat, w), hwd, ?_⟩
    simp [hw, hcat]
  · exact pyRound2_mono (mul_le_mul_of_nonneg_right hw2 hp)

theorem c3_witness :
    ({date := "d", employee := "E", material := "P", weight := 1, price := 2,
        amount := pyRound2 (1 * 2)} : TRow)
      ∈ append_transactions "E" [("P", PyVal.num 1)] (sheet_of [("P", PyVal.num 2)]) "d"
    ∧ ("P", (1:ℚ), pyRound2 (1 * 2))
        ∈ materials_for_receipt (sheet_of [("P", PyVal.num 2)]) [("P", 1)]
    ∧ pyRound2 ((1:ℚ) * 2) ≤ pyRound2 ((3:ℚ) * 2) := by
  have h := c3_thm "E" "d" "P" [("P", PyVal.num 1)] (sheet_of [("P", PyVal.num 2)])
    1 2 3 (by norm_num) (by norm_num) (by norm_num)
    (by simp [get_materials, sheet_records_sheet_of, float_or0, dictInsert, lookupD])
    (by simp)
  exact ⟨h.1, h.2.1 [("P", 1)] (by simp), h.2.2⟩

/-- C4: saving the catalog is a full replace — for every price mapping
`pd` with distinct material names, `save_prices` followed immediately by
`get_materials` yields exactly `pd`, whatever the previous sheet held,
and every material absent from `pd` is absent from the returned catalog. -/
theorem c4_thm (old : List PRow) (pd : List (String × ℚ)) (m : String)
    (hnd : (keys pd).Nodup) (hm : m ∉ keys pd) :
    get_materials (save_prices old pd) = pd
    ∧ m ∉ keys (get_materials (save_prices old pd)) := by
  have h := get_materials_save old pd hnd
  exact ⟨h, by rw [h]; exact hm⟩

theorem c4_witness :
    get_materials (save_prices (sheet_of [("C", PyVal.num 1)]) [("A", 5), ("B", 10)])
      = [("A", 5), ("B", 10)]
    ∧ "Z" ∉ keys (get_materials
        (save_prices (sheet_of [("C", PyVal.num 1)]) [("A", 5), ("B", 10)])) :=
  c4_thm (sheet_of [("C", PyVal.num 1)]) [("A", 5), ("B", 10)] "Z"
    (by decide) (by decide)

/-- C6: a material with positive submitted weight that is absent from the
catalog is priced at unit price 0 by the recorder and both receipt
builders: a line is produced with price 0 and amount 0 rather than the
material being rejected or skipped. -/
theorem c6_thm (sheet : List PRow) (emp now mat : String)
    (weights : List (String × PyVal)) (wd : List (String × ℚ)) (w : ℚ)
    (hw : 0 < w) (hunk : mat ∉ keys (get_materials sheet))
    (hmem : (mat, PyVal.num w) ∈ weights) (hmem2 : (mat, w) ∈ wd) :
    ({date := now, employee := emp, material := mat, weight := w, price := 0,
        amount := 0} : TRow) ∈ append_transactions emp weights sheet now
    ∧ (mat, w, (0:ℚ)) ∈ materials_for_receipt sheet wd
    ∧ ({material := mat, weight := w, price := 0, amount := 0} : RItem)
        ∈ receipt_items sheet wd := by
  have hlook : lookupD (get_materials sheet) mat 0 = 0 := lookupD_of_not_mem 0 hunk
  refine ⟨?_, ?_, ?_⟩
  · rw [append_transactions]
    refine List.mem_map.2 ⟨(mat, PyVal.num w), hmem, ?_⟩
    simp [float_or0, hlook, pyRound2_zero]
  · rw [materials_for_receipt]
    refine List.mem_filterMap.2 ⟨(mat, w), hmem2, ?_⟩
    simp [hw, hlook, pyRound2_zero]
  · rw [receipt_items]
    refine List.mem_map.2 ⟨(mat, w), hmem2, ?_⟩
    simp [hlook, pyRound2_zero]

theorem c6_witness :
    ({date := "d", employee := "E", material := "Glass", weight := 3, price := 0,
        amount := 0} : TRow)
      ∈ append_transactions "E" [("Glass", PyVal.num 3)]
          (sheet_of [("Plastic", PyVal.num 2)]) "d"
    ∧ ("Glass", (3:ℚ), (0:ℚ))
        ∈ materials_for_receipt (sheet_of [("Plastic", PyVal.num 2)]) [("Glass", 3)]
    ∧ ({material := "Glass", weight := 3, price := 0, amount := 0} : RItem)
        ∈ receipt_items (sheet_of [("Plastic", PyVal.num 2)]) [("Glass", 3)] :=
  c6_thm (sheet_of [("Plastic", PyVal.num 2)]) "E" "d" "Glass"
    [("Glass", PyVal.num 3)] [("Glass", 3)] 3 (by norm_num)
    (by decide) (by simp) (by simp)

/-- C7: `get_transactions` with the today filter returns exactly the
records of the full listing whose stored date string starts with the
current date prefix, in the same order — in particular a sublist of the
full listing. -/
theorem c7_thm (records : List TRow) (today : String) :
    get_transactions records false today
      = (get_transactions records true today).filter
          (fun r => r.date.startsWith today)
    ∧ (get_transactions records false today).Sublist
        (get_transactions records true today) := by
  constructor
  · rfl
  · show (records.filter _).Sublist records
    exact List.filter_sublist records

/-- C8: `save_prices` clears the whole price table before appending any
replacement row, so a failure after `k ≥ 1` primitive operations reports
an error and leaves the sheet equal to a prefix of the fresh rewrite —
empty when only the clear ran — independent of the previous catalog,
which is not restored. -/
theorem c8_thm (old : List PRow) (pd : List (String × ℚ)) (k : ℕ)
    (hk1 : 1 ≤ k) (hk2 : k < (save_prices_ops pd).length) :
    save_prices_fail old pd k
      = ((PRow.header :: price_rows pd).take (k - 1), false) := by
  rw [save_prices_fail, if_pos hk2, run_ops_save old pd k hk1]

theorem c8_witness :
    save_prices_fail (sheet_of [("C", PyVal.num 1)]) [("A", 5), ("B", 10)] 1
      = ((PRow.header :: price_rows [("A", 5), ("B", 10)]).take 0, false) :=
  c8_thm (sheet_of [("C", PyVal.num 1)]) [("A", 5), ("B", 10)] 1
    (by norm_num) (by simp [save_prices_ops])

theorem append_transactions_materials (emp now : String)
    (weights : List (String × PyVal)) (sheet : List PRow) :
    (append_transactions emp weights sheet now).map TRow.material = keys weights := by
  rw [append_transactions, List.map_map, keys]
  rfl

theorem receipt_items_materials (sheet : List PRow)
    (wd : List (String × ℚ)) :
    (receipt_items sheet wd).map RItem.material = keys wd := by
  rw [receipt_items, List.map_map, keys]
  rfl

/-- C1 (counterexample): an entry with weight 0 is not skipped by the
transaction recorder — `append_transactions` appends a row for it. -/
theorem c1_counterexample :
    append_transactions "Alice" [("Plastic", PyVal.num 0)]
      (sheet_of [("Plastic", PyVal.num 3)]) "2026-02-03 10:00:00"
      = [{date := "2026-02-03 10:00:00", employee := "Alice",
          material := "Plastic", weight := 0, price := 3, amount := 0}] := by
  simp [append_transactions, get_materials, sheet_records_sheet_of, float_or0,
    dictInsert, lookupD, pyRound2_zero]

/-- C1 (amended): entries with weight ≤ 0 are absent from the lines of
the receipt builder that filters positive weights
(`materials_for_receipt`, src/app.py lines 236-247), but the transaction
recorder appends a row for every entry of the weight mapping regardless
of its weight, and the second receipt builder (`receipt_items`,
src/app.py lines 324-332) also keeps every entry. -/
theorem c1_amended_thm (sheet sheet2 sheet3 : List PRow)
    (wd wd2 : List (String × ℚ)) (weights : List (String × PyVal))
    (emp now mat : String) (w : ℚ)
    (hnd : (keys wd).Nodup) (hmem : (mat, w) ∈ wd) (hw : w ≤ 0) :
    mat ∉ (materials_for_receipt sheet wd).map (fun l => l.1)
    ∧ (append_transactions emp weights sheet2 now).map TRow.material = keys weights
    ∧ (receipt_items sheet3 wd2).map RItem.material = keys wd2 := by
  refine ⟨?_, append_transactions_materials emp now weights sheet2,
    receipt_items_materials sheet3 wd2⟩
  intro hmm
  obtain ⟨l, hl, hfst⟩ := List.mem_map.1 hmm
  rw [materials_for_receipt] at hl
  obtain ⟨mw, hmw, hf⟩ := List.mem_filterMap.1 hl
  by_cases hpos : 0 < mw.2
  · rw [if_pos hpos] at hf
    have hle : (mw.1, mw.2, pyRound2 (mw.2 * lookupD (get_materials sheet) mw.1 0))
        = l := Option.some.inj hf
    have h1 : mw.1 = mat := by rw [← hle] at hfst; exact hfst
    have h2 : (mat, mw.2) ∈ wd := by
      rw [← h1]
      simpa using hmw
    have h3 : w = mw.2 := key_nodup_val_eq hnd hmem h2
    rw [← h3] at hpos
    exact absurd hw (not_le.2 hpos)
  · rw [if_neg hpos] at hf
    cases hf

theorem c1_amended_witness :
    "Plastic" ∉ (materials_for_receipt (sheet_of [("Plastic", PyVal.num 3)])
        [("Plastic", 0)]).map (fun l => l.1)
    ∧ (append_transactions "E" [("Q", PyVal.num 0)] (sheet_of []) "d").map
        TRow.material = keys [("Q", PyVal.num 0)]
    ∧ (receipt_items (sheet_of []) [("Q", (0:ℚ))]).map RItem.material
        = keys [("Q", (0:ℚ))] :=
  c1_amended_thm (sheet_of [("Plastic", PyVal.num 3)]) (sheet_of []) (sheet_of [])
    [("Plastic", 0)] [("Q", 0)] [("Q", PyVal.num 0)] "E" "d" "Plastic" 0
    (by decide) (by simp) (by norm_num)

/-- C2 (counterexample): the transaction recorder generates no
per-call transaction identifier.  A persisted row consists only of the
six fields `Date/Employee/Material/Weight/Price/Amount`, and the very
same row value is persisted by two different calls (same timestamp,
different weight mappings), so no row field can identify the call it
came from — contradicting the claim that every persisted row carries a
transaction identifier distinct from that of every other call. -/
theorem c2_counterexample :
    append_transactions "A" [("P", PyVal.num 1)] (sheet_of [("P", PyVal.num 2)]) "d"
      = [{date := "d", employee := "A", material := "P", weight := 1, price := 2,
          amount := 2}]
    ∧ ({date := "d", employee := "A", material := "P", weight := 1, price := 2,
        amount := 2} : TRow)
      ∈ append_transactions "A" [("P", PyVal.num 1), ("Q", PyVal.num 4)]
          (sheet_of [("P", PyVal.num 2)]) "d" := by
  constructor
  · simp [append_transactions, get_materials, sheet_records_sheet_of, float_or0,
      dictInsert, lookupD]
    norm_num [pyRound2, rhe]
  · simp [append_transactions, get_materials, sheet_records_sheet_of, float_or0,
      dictInsert, lookupD]
    norm_num [pyRound2, rhe]

/-- C2 (amended): each call to the transaction recorder uses one shared
timestamp, and every persisted row of the call carries that timestamp as
its `Date` field together with the employee name; no transaction
identifier is generated. -/
theorem c2_amended_thm (emp now : String) (weights : List (String × PyVal))
    (sheet : List PRow) (r : TRow)
    (hr : r ∈ append_transactions emp weights sheet now) :
    r.date = now ∧ r.employee = emp := by
  rw [append_transactions] at hr
  obtain ⟨mw, _, heq⟩ := List.mem_map.1 hr
  rw [← heq]
  exact ⟨rfl, rfl⟩

theorem c2_amended_witness :
    ({date := "d", employee := "A", material := "P", weight := 1, price := 2,
        amount := pyRound2 (2 * 1)} : TRow).date = "d"
    ∧ ({date := "d", employee := "A", material := "P", weight := 1, price := 2,
        amount := pyRound2 (2 * 1)} : TRow).employee = "A" :=
  c2_amended_thm "A" "d" [("P", PyVal.num 1)] (sheet_of [("P", PyVal.num 2)]) _
    (by simp [append_transactions, get_materials, sheet_records_sheet_of,
      float_or0, dictInsert, lookupD])

/-- C5 (counterexample): a malformed price submitted to the admin price
editor is not treated as 0 — the POST is rejected with the flashed error
message and nothing is saved. -/
theorem c5_counterexample :
    admin_prices_post (sheet_of [("Plastic", PyVal.num 5)])
      (fun _ => some FormRaw.bad)
      = Except.error "Invalid price for Plastic." := rfl

/-- C5 (amended): malformed numeric input defaults to 0 in the payout
weight parsing (`employee_payout_weights`), in the transaction recorder
(`append_transactions`), and in the catalog reader (`get_materials`,
for a stored unparseable price); but the admin price editor
(`admin_prices_post`) rejects a malformed submitted price with an error
instead of treating it as 0. -/
theorem c5_amended_thm (sheet : List PRow) (form : String → Option FormRaw)
    (mat : String) (p : ℚ) (emp now : String)
    (weights : List (String × PyVal)) (rs : List (String × PyVal))
    (h1 : (mat, p) ∈ get_materials sheet)
    (h2 : form mat = some FormRaw.bad)
    (h3 : (mat, PyVal.bad) ∈ weights) :
    (mat, (0:ℚ)) ∈ employee_payout_weights sheet form
    ∧ ({date := now, employee := emp, material := mat, weight := 0,
        price := lookupD (get_materials sheet) mat 0, amount := 0} : TRow)
      ∈ append_transactions emp weights sheet now
    ∧ lookupD (get_materials (sheet_of (rs ++ [(mat, PyVal.bad)]))) mat 0 = 0
    ∧ (admin_prices_post sheet form).isOk = false := by
  refine ⟨?_, ?_, ?_, ?_⟩
  · rw [employee_payout_weights]
    refine List.mem_map.2 ⟨(mat, p), h1, ?_⟩
    simp [parse_weight, h2]
  · rw [append_transactions]
    refine List.mem_map.2 ⟨(mat, PyVal.bad), h3, ?_⟩
    simp [float_or0, pyRound2_zero]
  · rw [get_materials, sheet_records_sheet_of, List.foldl_append]
    simp only [List.foldl_cons, List.foldl_nil, float_or0]
    exact lookupD_dictInsert_self _ mat 0 0
  · obtain ⟨e, he⟩ :=
      admin_new_prices_error (get_materials sheet) form (mat, p) h1 h2
    rw [admin_prices_post, he]
    rfl

theorem c5_amended_witness :
    ("Plastic", (0:ℚ)) ∈ employee_payout_weights
        (sheet_of [("Plastic", PyVal.num 5)]) (fun _ => some FormRaw.bad)
    ∧ ({date := "d", employee := "E", material := "Plastic", weight := 0,
        price := lookupD (get_materials (sheet_of [("Plastic", PyVal.num 5)]))
          "Plastic" 0, amount := 0} : TRow)
      ∈ append_transactions "E" [("Plastic", PyVal.bad)]
          (sheet_of [("Plastic", PyVal.num 5)]) "d"
    ∧ lookupD (get_materials
        (sheet_of ([("G", PyVal.num 1)] ++ [("Plastic", PyVal.bad)]))) "Plastic" 0 = 0
    ∧ (admin_prices_post (sheet_of [("Plastic", PyVal.num 5)])
        (fun _ => some FormRaw.bad)).isOk = false :=
  c5_amended_thm (sheet_of [("Plastic", PyVal.num 5)]) (fun _ => some FormRaw.bad)
    "Plastic" 5 "E" "d" [("Plastic", PyVal.bad)] [("G", PyVal.num 1)]
    (by decide) rfl (by simp)

theorem save_prices_fail_ok (old : List PRow) (pd : List (String × ℚ))
    (k : ℕ) (h : (save_prices_fail old pd k).2 = true) :
    (save_prices_fail old pd k).1 = save_prices old pd := by
  by_cases hk : k < (save_prices_ops pd).length
  · simp [save_prices_fail, hk] at h
  · simp [save_prices_fail, hk]

/-- C9 (counterexample): a POST to the admin price editor can remove a
material from the catalog.  An accepted POST whose `save_prices` call
raises right after `ws.clear()` (one completed primitive operation)
leaves the price table empty: the material present before the edit is
absent afterwards. -/
theorem c9_counterexample :
    "A" ∈ keys (get_materials (sheet_of [("A", PyVal.num 5)]))
    ∧ "A" ∉ keys (get_materials (admin_prices_effect (sheet_of [("A", PyVal.num 5)])
        (fun s => if s = "A" then some (FormRaw.num 7) else none) 1)) := by
  decide

/-- C9 (amended): a POST to the admin price editor never removes a
material from the catalog provided any attempted save completes without
an exception: a rejected POST leaves the sheet unchanged, and on an
accepted POST the route merges the submitted updates over the full
current catalog before saving, so after a completed save every material
present before the edit is still a key of the catalog, holding either
its old price or the price the form submitted for it.  (A save failing
mid-write after its clear can remove materials — see the
counterexample.) -/
theorem c9_amended_thm (sheet : List PRow) (form : String → Option FormRaw)
    (k : ℕ) (m : String)
    (hm : m ∈ keys (get_materials sheet))
    (hok : admin_prices_save_ok sheet form k = true) :
    m ∈ keys (get_materials (admin_prices_effect sheet form k))
    ∧ (lookupD (get_materials (admin_prices_effect sheet form k)) m 0
          = lookupD (get_materials sheet) m 0
       ∨ form m = some (FormRaw.num
          (lookupD (get_materials (admin_prices_effect sheet form k)) m 0))) := by
  cases hpost : admin_new_prices (get_materials sheet) form with
  | error e =>
    have heff : admin_prices_effect sheet form k = sheet := by
      unfold admin_prices_effect admin_prices_post
      rw [hpost]
      rfl
    rw [heff]
    exact ⟨hm, Or.inl rfl⟩
  | ok np =>
    have hflag : (save_prices_fail sheet
        (np.foldl (fun d r => dictInsert d r.1 r.2) (get_materials sheet)) k).2
        = true := by
      unfold admin_prices_save_ok admin_prices_post at hok
      rw [hpost] at hok
      exact hok
    have heff : admin_prices_effect sheet form k
        = save_prices sheet
            (np.foldl (fun d r => dictInsert d r.1 r.2) (get_materials sheet)) := by
      unfold admin_prices_effect admin_prices_post
      rw [hpost]
      exact save_prices_fail_ok sheet _ k hflag
    have hsub : ∀ x ∈ np, x.1 ∈ keys (get_materials sheet) := fun x hx =>
      (admin_new_prices_ok (get_materials sheet) form np hpost x hx).1
    have hkeys :
        keys (np.foldl (fun d r => dictInsert d r.1 r.2) (get_materials sheet))
          = keys (get_materials sheet) :=
      keys_foldl_dictInsert_of_sub np (get_materials sheet) hsub
    have hndm :
        (keys (np.foldl (fun d r => dictInsert d r.1 r.2)
          (get_materials sheet))).Nodup := by
      rw [hkeys]
      exact get_materials_keys_nodup sheet
    have hgm : get_materials (admin_prices_effect sheet form k)
        = np.foldl (fun d r => dictInsert d r.1 r.2) (get_materials sheet) := by
      rw [heff]
      exact get_materials_save sheet _ hndm
    constructor
    · rw [hgm, hkeys]
      exact hm
    · rcases foldl_dictInsert_lookupD np (get_materials sheet) m 0 with h | ⟨q, hq, hval⟩
      · rw [hgm]
        exact Or.inl h
      · right
        have hform := (admin_new_prices_ok (get_materials sheet) form np hpost
          (m, q) hq).2
        rw [hgm, hval]
        exact hform

theorem c9_amended_witness :
    "A" ∈ keys (get_materials (admin_prices_effect (sheet_of [("A", PyVal.num 5)])
        (fun s => if s = "A" then some (FormRaw.num 7) else none) 10))
    ∧ (lookupD (get_materials (admin_prices_effect (sheet_of [("A", PyVal.num 5)])
          (fun s => if s = "A" then some (FormRaw.num 7) else none) 10)) "A" 0
        = lookupD (get_materials (sheet_of [("A", PyVal.num 5)])) "A" 0
       ∨ (fun s => if s = "A" then some (FormRaw.num 7) else none) "A"
          = some (FormRaw.num
            (lookupD (get_materials (admin_prices_effect (sheet_of [("A", PyVal.num 5)])
              (fun s => if s = "A" then some (FormRaw.num 7) else none) 10)) "A" 0))) :=
  c9_amended_thm (sheet_of [("A", PyVal.num 5)])
    (fun s => if s = "A" then some (FormRaw.num 7) else none) 10 "A"
    (by decide) (by decide)

/-- C10: a payout submission builds its weight mapping exactly over the
keys of the current catalog: the key list equals the catalog key list, a
form field for a material outside the catalog is ignored entirely (the
result only depends on the form at catalog keys), a missing or blank
field defaults to weight 0, and every material name persisted by the
submission is a catalog key. -/
theorem c10_thm (sheet : List PRow) (form form2 : String → Option FormRaw)
    (emp now mat : String) (p : ℚ) (r : TRow)
    (hagree : ∀ m, m ∈ keys (get_materials sheet) → form m = form2 m)
    (hmp : (mat, p) ∈ get_materials sheet)
    (hblank : form mat = none ∨ form mat = some FormRaw.blank)
    (hr : r ∈ append_transactions emp
      ((employee_payout_weights sheet form).map (fun mw => (mw.1, PyVal.num mw.2)))
      sheet now) :
    keys (employee_payout_weights sheet form) = keys (get_materials sheet)
    ∧ employee_payout_weights sheet form = employee_payout_weights sheet form2
    ∧ (mat, (0:ℚ)) ∈ employee_payout_weights sheet form
    ∧ r.material ∈ keys (get_materials sheet) := by
  refine ⟨?_, ?_, ?_, ?_⟩
  · rw [employee_payout_weights, keys, keys, List.map_map]
    rfl
  · rw [employee_payout_weights, employee_payout_weights]
    refine List.map_congr_left ?_
    intro mp hmp2
    rw [hagree mp.1 (List.mem_map_of_mem Prod.fst hmp2)]
  · rw [employee_payout_weights]
    refine List.mem_map.2 ⟨(mat, p), hmp, ?_⟩
    rcases hblank with h | h <;> simp [parse_weight, h]
  · rw [append_transactions] at hr
    obtain ⟨mw, hmw, heq⟩ := List.mem_map.1 hr
    have hr1 : r.material = mw.1 := by rw [← heq]
    rw [hr1]
    obtain ⟨x, hx, hxe⟩ := List.mem_map.1 hmw
    have hx1 : mw.1 = x.1 := by rw [← hxe]
    rw [hx1]
    rw [employee_payout_weights] at hx
    obtain ⟨mp2, hmp2, hmpe⟩ := List.mem_map.1 hx
    have hmp1 : x.1 = mp2.1 := by rw [← hmpe]
    rw [hmp1]
    exact List.mem_map_of_mem Prod.fst hmp2

theorem c10_witness :
    keys (employee_payout_weights (sheet_of [("A", PyVal.num 5)]) (fun _ => none))
      = keys (get_materials (sheet_of [("A", PyVal.num 5)]))
    ∧ employee_payout_weights (sheet_of [("A", PyVal.num 5)]) (fun _ => none)
        = employee_payout_weights (sheet_of [("A", PyVal.num 5)]) (fun _ => none)
    ∧ ("A", (0:ℚ)) ∈ employee_payout_weights (sheet_of [("A", PyVal.num 5)])
        (fun _ => none)
    ∧ ({date := "d", employee := "E", material := "A", weight := 0, price := 5,
        amount := 0} : TRow).material
      ∈ keys (get_materials (sheet_of [("A", PyVal.num 5)])) :=
  c10_thm (sheet_of [("A", PyVal.num 5)]) (fun _ => none) (fun _ => none)
    "E" "d" "A" 5 _ (fun _ _ => rfl) (by decide) (Or.inl rfl)
    (by simp [append_transactions, employee_payout_weights, get_materials,
      sheet_records_sheet_of, float_or0, dictInsert, lookupD, parse_weight,
      pyRound2_zero])
